import Mathlib

/-!
Verification of `picoarg.hpp` (class `OptionParser`), a single-header
command-line option parser.  The C++ is embedded shallowly:

* `std::string` is modelled as `List Char`;
* the private `struct Option` of `OptionParser` is `Opt` (renamed to avoid
  clashing with Lean's `Option` type);
* the two private `std::vector<Option>` members `options` and `parsed` form
  the record `OptionParser`;
* `OptionParser::parse` prints diagnostics to `std::cout` and returns `bool`;
  its observable behaviour is the triple `ParseResult` (new state, returned
  bool, printed lines);
* `OptionParser::popValue` executes `parsed.erase(it)` even when
  `it == parsed.end()`, which the C++ standard leaves undefined; that
  undefined call is modelled by returning `none`.
-/

namespace Picoarg

/-- The private `struct Option` of `OptionParser` in picoarg.hpp:
`char key; std::string value; bool expectsValue;`.  Named `Opt` because
`Option` is taken by Lean's core library. -/
structure Opt where
  key : Char
  value : List Char
  expectsValue : Bool
deriving DecidableEq, Repr

/-- The private state of an `OptionParser`: the registry vector `options`
and the result-store vector `parsed`.  A default-constructed parser has
both vectors empty. -/
structure OptionParser where
  options : List Opt
  parsed : List Opt
deriving DecidableEq, Repr

/-- `OptionParser::isOption`: `token.size() > 1 && token[0] == '-'`.
For a token of length at most 1 the right operand is short-circuited, so a
default head is harmless. -/
def isOption (token : List Char) : Bool :=
  decide (1 < token.length) && (token.headD (Char.ofNat 0) == '-')

/-- `char key = token[1];` in `OptionParser::parse`.  The parse loop only
reads it after `isOption` succeeded, so index 1 is in range there. -/
def keyOf (token : List Char) : Char :=
  token.getD 1 (Char.ofNat 0)

/-- The error a single iteration of the loop in `OptionParser::parse`
diagnoses, one constructor per `std::cout` message and early
`return false`. -/
inductive ParseErr where
  | expectedOption (token : List Char)
  | unknownOption (key : Char)
  | missingValue (key : Char)
  | unexpectedValue (key : Char)
deriving DecidableEq, Repr

/-- `std::find_if(options.begin(), options.end(), Compare(key))`: the first
element whose `key` field equals `key`, if any. -/
def findOption (options : List Opt) (key : Char) : Option Opt :=
  options.find? (fun o => o.key == key)

/-- One iteration of the `for` loop in `OptionParser::parse`, applied to a
single `token`: either the `Option` value pushed onto `parsed`, or the
error on which the loop bails out.  The checks appear in source order:
`isOption`, registry lookup, missing-value, unexpected-value, then the
inline value `token.substr(2)` is attached when expected and present. -/
def parseToken (options : List Opt) (token : List Char) : Except ParseErr Opt :=
  if !isOption token then
    .error (.expectedOption token)
  else
    match findOption options (keyOf token) with
    | none => .error (.unknownOption (keyOf token))
    | some option =>
      if option.expectsValue && decide (token.length ≤ 2) then
        .error (.missingValue (keyOf token))
      else if !option.expectsValue && decide (2 < token.length) then
        .error (.unexpectedValue (keyOf token))
      else if option.expectsValue && decide (2 < token.length) then
        .ok { option with value := token.drop 2 }
      else
        .ok option

/-- The whole `for` loop of `OptionParser::parse`: tokens are processed
left to right, each successful one appended to `parsed`; the first failing
token stops the loop, leaving everything pushed so far in place. -/
def runLoop (options : List Opt) (parsed : List Opt) :
    List (List Char) → List Opt × Option ParseErr
  | [] => (parsed, none)
  | token :: rest =>
    match parseToken options token with
    | .ok o => runLoop options (parsed ++ [o]) rest
    | .error e => (parsed, some e)

/-- The apostrophe character the diagnostics use as a quote. -/
def quoteChar : Char := Char.ofNat 39

/-- The exact line `OptionParser::parse` prints to `std::cout` for each
error before returning `false`. -/
def errMsg : ParseErr → List Char
  | .expectedOption token =>
      ("Expected an option, found ").toList ++ quoteChar :: token ++ [quoteChar]
  | .unknownOption key =>
      ("Unknown option ").toList ++ quoteChar :: '-' :: key :: [quoteChar]
  | .missingValue key =>
      ("Missing value after ").toList ++ quoteChar :: '-' :: key :: [quoteChar]
  | .unexpectedValue key =>
      ("Option ").toList ++ quoteChar :: '-' :: key :: quoteChar ::
        (" doesn").toList ++ quoteChar :: ("t allow a value").toList

/-- The observable outcome of one call to `OptionParser::parse`: the
updated parser state, the returned `bool`, and the lines printed to
`std::cout`. -/
structure ParseResult where
  state : OptionParser
  success : Bool
  output : List (List Char)
deriving DecidableEq, Repr

/-- `OptionParser::parse`.  `args` is the argument vector already stripped
of the program name (the C++ builds `args` from `argv + 1`).  On success
the registry is cleared (`options.clear()`) and `true` returned with
nothing printed; on the first error the diagnostic line is printed and
`false` returned, with the registry untouched and `parsed` keeping the
occurrences pushed before the failure. -/
def parse (p : OptionParser) (args : List (List Char)) : ParseResult :=
  match runLoop p.options p.parsed args with
  | (parsedOut, none) => ⟨⟨[], parsedOut⟩, true, []⟩
  | (parsedOut, some e) => ⟨⟨p.options, parsedOut⟩, false, [errMsg e]⟩

/-- `OptionParser::add`: `options.push_back({ key, "", expectsValue });`.
(The C++ declaration gives `expectsValue` the default `false`.) -/
def add (p : OptionParser) (key : Char) (expectsValue : Bool) : OptionParser :=
  { p with options := p.options ++ [⟨key, [], expectsValue⟩] }

/-- `OptionParser::has`: `find_if` over `parsed`, true iff a parsed
occurrence with that key exists.  It reads `parsed` only, mutating
nothing. -/
def has (p : OptionParser) (key : Char) : Bool :=
  (p.parsed.find? (fun o => o.key == key)).isSome

/-- `OptionParser::popValue`: `find_if` over `parsed`, read the found
element's `value`, then `parsed.erase(it)`.  When `find_if` misses,
`it == parsed.end()` and `parsed.erase(parsed.end())` is undefined
behaviour per the C++ standard; that call is modelled as `none`. -/
def popValue (p : OptionParser) (key : Char) :
    Option (List Char × OptionParser) :=
  match p.parsed.findIdx? (fun o => o.key == key) with
  | some i =>
      some ((p.parsed.getD i ⟨key, [], false⟩).value,
            { p with parsed := p.parsed.eraseIdx i })
  | none => none

/-- The value carried by a successful `parseToken`, if any. -/
def okValue : Except ParseErr Opt → Option Opt
  | .ok o => some o
  | .error _ => none

/-! ### Helper lemmas about `List.find?` and `List.eraseIdx` -/

theorem find?_append_of_some {α : Type} {p : α → Bool} {l₁ : List α} {a : α}
    (l₂ : List α) (h : l₁.find? p = some a) : (l₁ ++ l₂).find? p = some a := by
  induction l₁ with
  | nil => simp [List.find?] at h
  | cons x xs ih =>
    rw [List.cons_append]
    cases hx : p x with
    | true =>
      rw [List.find?_cons_of_pos _ hx] at h
      rw [List.find?_cons_of_pos _ hx]
      exact h
    | false =>
      rw [List.find?_cons_of_neg _ (by simp [hx])] at h
      rw [List.find?_cons_of_neg _ (by simp [hx])]
      exact ih h

theorem find?_append_of_none {α : Type} {p : α → Bool} {l₁ : List α}
    (l₂ : List α) (h : l₁.find? p = none) : (l₁ ++ l₂).find? p = l₂.find? p := by
  induction l₁ with
  | nil => simp
  | cons x xs ih =>
    rw [List.cons_append]
    cases hx : p x with
    | true => rw [List.find?_cons_of_pos _ hx] at h; exact absurd h (by simp)
    | false =>
      rw [List.find?_cons_of_neg _ (by simp [hx])] at h
      rw [List.find?_cons_of_neg _ (by simp [hx])]
      exact ih h

theorem mem_of_find?_some {α : Type} {p : α → Bool} {l : List α} {a : α}
    (h : l.find? p = some a) : a ∈ l := by
  induction l with
  | nil => simp [List.find?] at h
  | cons x xs ih =>
    cases hx : p x with
    | true =>
      rw [List.find?_cons_of_pos _ hx] at h
      exact (Option.some.injEq _ _ ▸ h) ▸ List.mem_cons_self x xs
    | false =>
      rw [List.find?_cons_of_neg _ (by simp [hx])] at h
      exact List.mem_cons_of_mem x (ih h)

theorem mem_of_eraseIdx {α : Type} :
    ∀ (l : List α) (i : Nat) (a : α), a ∈ l.eraseIdx i → a ∈ l := by
  intro l
  induction l with
  | nil => intro i a h; simp [List.eraseIdx] at h
  | cons x xs ih =>
    intro i a h
    cases i with
    | zero => exact List.mem_cons_of_mem x (by simpa [List.eraseIdx] using h)
    | succ j =>
      simp only [List.eraseIdx, List.mem_cons] at h
      rcases h with h | h
      · exact h ▸ List.mem_cons_self x xs
      · exact List.mem_cons_of_mem x (ih j a h)

/-! ### Helper lemmas about `runLoop`, `parse` and `parseToken` -/

/-- The loop only ever appends to `parsed`; it never removes or reorders
what was there when `parse` was entered. -/
theorem runLoop_extends (options : List Opt) :
    ∀ (args : List (List Char)) (parsed : List Opt),
      ∃ t, (runLoop options parsed args).1 = parsed ++ t := by
  intro args
  induction args with
  | nil => intro parsed; exact ⟨[], by simp [runLoop]⟩
  | cons token rest ih =>
    intro parsed
    cases h : parseToken options token with
    | ok o =>
      obtain ⟨t, ht⟩ := ih (parsed ++ [o])
      exact ⟨o :: t, by simp [runLoop, h, ht]⟩
    | error e => exact ⟨[], by simp [runLoop, h]⟩

/-- Decomposition of a failing run of the loop: the input splits as a
prefix of accepted tokens, the offending token producing the reported
error, and an unprocessed tail; the store gains exactly the accepted
prefix's occurrences. -/
theorem runLoop_fail (options : List Opt) :
    ∀ (args : List (List Char)) (parsed parsedOut : List Opt) (e : ParseErr),
      runLoop options parsed args = (parsedOut, some e) →
      ∃ pre bad rest, args = pre ++ bad :: rest ∧
        parseToken options bad = .error e ∧
        (∀ t ∈ pre, ∃ o, parseToken options t = .ok o) ∧
        parsedOut = parsed ++ pre.filterMap (fun t => okValue (parseToken options t)) := by
  intro args
  induction args with
  | nil => intro parsed parsedOut e h; simp [runLoop] at h
  | cons token rest ih =>
    intro parsed parsedOut e h
    cases htok : parseToken options token with
    | ok o =>
      simp only [runLoop, htok] at h
      obtain ⟨pre, bad, rest', h1, h2, h3, h4⟩ := ih (parsed ++ [o]) parsedOut e h
      refine ⟨token :: pre, bad, rest', by simp [h1], h2, ?_, ?_⟩
      · intro t ht
        rcases List.mem_cons.mp ht with heq | hmem
        · exact heq ▸ ⟨o, htok⟩
        · exact h3 t hmem
      · simp [List.filterMap_cons, htok, okValue, h4]
    | error e' =>
      simp only [runLoop, htok, Prod.mk.injEq, Option.some.injEq] at h
      exact ⟨[], token, rest, rfl, h.2 ▸ htok, by simp, by simp [h.1]⟩

/-- A token the loop accepts was matched against a registry entry: its key
is the key of some declared option. -/
theorem parseToken_ok_key {options : List Opt} {token : List Char} {o : Opt}
    (h : parseToken options token = .ok o) : o.key ∈ options.map Opt.key := by
  unfold parseToken at h
  by_cases hopt : isOption token = true
  · simp only [hopt, Bool.not_true, Bool.false_eq_true, if_false] at h
    cases hfind : findOption options (keyOf token) with
    | none => rw [hfind] at h; simp at h
    | some opt =>
      simp only [hfind] at h
      have hmem : opt ∈ options := mem_of_find?_some hfind
      have hkey : o.key = opt.key := by
        by_cases h₁ : (opt.expectsValue && decide (token.length ≤ 2)) = true
        · rw [if_pos h₁] at h; exact absurd h (by simp)
        · rw [if_neg h₁] at h
          by_cases h₂ : (!opt.expectsValue && decide (2 < token.length)) = true
          · rw [if_pos h₂] at h; exact absurd h (by simp)
          · rw [if_neg h₂] at h
            by_cases h₃ : (opt.expectsValue && decide (2 < token.length)) = true
            · rw [if_pos h₃] at h
              simp only [Except.ok.injEq] at h
              rw [← h]
            · rw [if_neg h₃] at h
              simp only [Except.ok.injEq] at h
              rw [← h]
      rw [List.mem_map]
      exact ⟨opt, hmem, hkey.symm⟩
  · rw [if_pos (by simp [hopt])] at h
    simp at h

/-- Every successfully parsed occurrence comes from a registry option. -/
theorem runLoop_mem (options : List Opt) :
    ∀ (args : List (List Char)) (parsed : List Opt) (o : Opt),
      o ∈ (runLoop options parsed args).1 →
      o ∈ parsed ∨ o.key ∈ options.map Opt.key := by
  intro args
  induction args with
  | nil => intro parsed o ho; exact Or.inl (by simpa [runLoop] using ho)
  | cons token rest ih =>
    intro parsed o ho
    cases htok : parseToken options token with
    | ok o' =>
      simp only [runLoop, htok] at ho
      rcases ih (parsed ++ [o']) o ho with hmem | hkey
      · rcases List.mem_append.mp hmem with hmem | hmem
        · exact Or.inl hmem
        · right
          have : o = o' := by simpa using hmem
          exact this ▸ parseToken_ok_key htok
      · exact Or.inr hkey
    | error e => exact Or.inl (by simpa [runLoop, htok] using ho)

/-- In both branches of `parse`, the final result store is the one computed
by the loop. -/
theorem parse_state_parsed (p : OptionParser) (args : List (List Char)) :
    (parse p args).state.parsed = (runLoop p.options p.parsed args).1 := by
  rcases h : runLoop p.options p.parsed args with ⟨parsedOut, res⟩
  cases res <;> simp [parse, h]

/-- Appending a second declaration for a key already declared right before
it never changes what `find_if` returns, for any key searched. -/
theorem findOption_append_pair (l : List Opt) (k k' : Char) (b₁ b₂ : Bool) :
    findOption (l ++ [⟨k, [], b₁⟩, ⟨k, [], b₂⟩]) k' =
      findOption (l ++ [⟨k, [], b₁⟩]) k' := by
  induction l with
  | nil =>
    cases hk : (k == k') with
    | true => simp [findOption, List.find?, hk]
    | false => simp [findOption, List.find?, hk]
  | cons x xs ih =>
    unfold findOption at *
    rw [List.cons_append, List.cons_append]
    cases hx : (x.key == k') with
    | true => simp [List.find?, hx]
    | false => simpa [List.find?, hx] using ih

/-- `parseToken` consults the registry only through `findOption`, so two
registries with identical lookup behaviour parse every token alike. -/
theorem parseToken_congr {opts₁ opts₂ : List Opt}
    (h : ∀ k, findOption opts₁ k = findOption opts₂ k) (token : List Char) :
    parseToken opts₁ token = parseToken opts₂ token := by
  unfold parseToken
  rw [h]

/-! ### The claims -/

/-- C1 counterexample: on a fresh parser with key 'a' declared, parsing
["-a", "x"] fails on the second token, yet has('a') is true afterwards —
the occurrence pushed for "-a" before the failure stays in the store, so
a failed parse does not leave the store free of occurrences. -/
theorem C1_counterexample :
    (parse (add ⟨[], []⟩ 'a' false) [['-','a'], ['x']]).success = false ∧
    has (parse (add ⟨[], []⟩ 'a' false) [['-','a'], ['x']]).state 'a' = true := by
  decide

/-- C1 (amended): a failed parse aborts at the first offending token — the
reported error comes from that one token, the accepted tokens before it
are exactly a prefix of the input, and a single diagnostic line is
printed — but the occurrences recorded from that accepted prefix remain in
the result store rather than being discarded. -/
theorem C1_failed_parse_aborts_keeping_prior_occurrences (p : OptionParser)
    (args : List (List Char))
    (hfail : (parse p args).success = false) :
    ∃ pre bad rest e, args = pre ++ bad :: rest ∧
      parseToken p.options bad = .error e ∧
      (∀ t ∈ pre, ∃ o, parseToken p.options t = .ok o) ∧
      (parse p args).state.parsed =
        p.parsed ++ pre.filterMap (fun t => okValue (parseToken p.options t)) ∧
      (parse p args).output = [errMsg e] := by
  rcases h : runLoop p.options p.parsed args with ⟨parsedOut, res⟩
  cases res with
  | none => simp [parse, h] at hfail
  | some e =>
    obtain ⟨pre, bad, rest, h₁, h₂, h₃, h₄⟩ :=
      runLoop_fail p.options args p.parsed parsedOut e h
    exact ⟨pre, bad, rest, e, h₁, h₂, h₃, by simp [parse, h, h₄],
      by simp [parse, h]⟩

/-- Witness for C1's amended theorem at the concrete failing input
(registry holding key 'a', arguments ["-a", "x"]). -/
theorem C1_witness :
    ∃ pre bad rest e, ([['-','a'], ['x']] : List (List Char)) = pre ++ bad :: rest ∧
      parseToken [⟨'a', [], false⟩] bad = .error e ∧
      (∀ t ∈ pre, ∃ o, parseToken [⟨'a', [], false⟩] t = .ok o) ∧
      (parse ⟨[⟨'a', [], false⟩], []⟩ [['-','a'], ['x']]).state.parsed =
        [] ++ pre.filterMap (fun t => okValue (parseToken [⟨'a', [], false⟩] t)) ∧
      (parse ⟨[⟨'a', [], false⟩], []⟩ [['-','a'], ['x']]).output = [errMsg e] :=
  C1_failed_parse_aborts_keeping_prior_occurrences
    ⟨[⟨'a', [], false⟩], []⟩ [['-','a'], ['x']] (by decide)

/-- C2: the claim says popValue on a key with no pending occurrence is
well-defined and leaves the store unchanged; the code instead reaches
`parsed.erase(parsed.end())` — undefined behaviour per the C++ standard,
modelled as `none` — evaluated here at an empty store and at a store whose
only occurrence carries a different key. -/
theorem C2_popValue_absent_is_undefined :
    popValue ⟨[], []⟩ 'x' = none ∧
    popValue ⟨[], [⟨'a', [], false⟩]⟩ 'x' = none := by decide

/-- C3: a token is a valid option token iff its length is at least 2 and
its first character is '-'; when the parse loop reaches any other token it
stops there with the expected-option error carrying that token. -/
theorem C3_isOption_characterisation (options parsed : List Opt)
    (token : List Char) (rest : List (List Char)) :
    (isOption token = true ↔ 2 ≤ token.length ∧ token.head? = some '-') ∧
    (isOption token = false →
      runLoop options parsed (token :: rest) =
        (parsed, some (.expectedOption token))) := by
  constructor
  · cases token with
    | nil => simp [isOption]
    | cons c cs =>
      simp only [isOption, List.headD_cons, List.length_cons, List.head?,
        Bool.and_eq_true, decide_eq_true_eq, beq_iff_eq, Option.some.injEq]
      constructor
      · rintro ⟨h₁, h₂⟩; exact ⟨by omega, h₂⟩
      · rintro ⟨h₁, h₂⟩; exact ⟨by omega, h₂⟩
  · intro h
    simp [runLoop, parseToken, h]

/-- Witness for C3 at the concrete token "x" (no leading dash). -/
theorem C3_witness :
    (isOption ['x'] = true ↔
      2 ≤ (['x'] : List Char).length ∧ (['x'] : List Char).head? = some '-') ∧
    runLoop [] [] [['x']] = ([], some (.expectedOption ['x'])) :=
  ⟨(C3_isOption_characterisation [] [] ['x'] []).1,
   (C3_isOption_characterisation [] [] ['x'] []).2 (by decide)⟩

/-- C4: for a valid option token whose key is declared, the loop reports
missing-value exactly when the spec expects a value and the token is bare
(length exactly 2), and unexpected-value exactly when the spec expects no
value and an inline value is present (length above 2); an accepted token
hands the remaining tokens on unchanged, so the next separate token is
never consumed as a value. -/
theorem C4_inline_value_policy (options : List Opt) (token : List Char)
    (o o' : Opt) (parsed : List Opt) (rest : List (List Char))
    (hopt : isOption token = true)
    (hfind : findOption options (keyOf token) = some o) :
    (parseToken options token = .error (.missingValue (keyOf token)) ↔
      o.expectsValue = true ∧ token.length = 2) ∧
    (parseToken options token = .error (.unexpectedValue (keyOf token)) ↔
      o.expectsValue = false ∧ 2 < token.length) ∧
    (parseToken options token = .ok o' →
      runLoop options parsed (token :: rest) =
        runLoop options (parsed ++ [o']) rest) := by
  have hlen : 1 < token.length := by
    have h := hopt
    simp only [isOption, Bool.and_eq_true, decide_eq_true_eq] at h
    exact h.1
  have hstep : parseToken options token =
      (if o.expectsValue && decide (token.length ≤ 2) then
        .error (.missingValue (keyOf token))
      else if !o.expectsValue && decide (2 < token.length) then
        .error (.unexpectedValue (keyOf token))
      else if o.expectsValue && decide (2 < token.length) then
        .ok { o with value := token.drop 2 }
      else .ok o) := by
    unfold parseToken
    simp [hopt, hfind]
  refine ⟨?_, ?_, ?_⟩
  · rw [hstep]
    rcases Nat.lt_or_ge 2 token.length with h₂ | h₂
    · cases hb : o.expectsValue with
      | true => simp [hb, h₂, Nat.not_le.mpr h₂]; omega
      | false => simp [hb, h₂, Nat.not_le.mpr h₂]
    · have hlen2 : token.length = 2 := by omega
      cases hb : o.expectsValue with
      | true => simp [hb, hlen2]
      | false => simp [hb, hlen2]
  · rw [hstep]
    rcases Nat.lt_or_ge 2 token.length with h₂ | h₂
    · cases hb : o.expectsValue with
      | true => simp [hb, h₂, Nat.not_le.mpr h₂]
      | false => simp [hb, h₂, Nat.not_le.mpr h₂]
    · have hlen2 : token.length = 2 := by omega
      cases hb : o.expectsValue with
      | true => simp [hb, hlen2]
      | false => simp [hb, hlen2]
  · intro hok
    simp [runLoop, hok]

/-- Witness for C4 at the concrete declared option ('f', expects value)
and token "-fa": both error equivalences are settled and the accepted
token leaves the remaining (empty) token list to the next iteration. -/
theorem C4_witness :
    (parseToken [⟨'f', [], true⟩] ['-','f','a'] =
        .error (.missingValue (keyOf ['-','f','a'])) ↔
      (⟨'f', [], true⟩ : Opt).expectsValue = true ∧
        (['-','f','a'] : List Char).length = 2) ∧
    (parseToken [⟨'f', [], true⟩] ['-','f','a'] =
        .error (.unexpectedValue (keyOf ['-','f','a'])) ↔
      (⟨'f', [], true⟩ : Opt).expectsValue = false ∧
        2 < (['-','f','a'] : List Char).length) ∧
    runLoop [⟨'f', [], true⟩] [] [['-','f','a']] =
      runLoop [⟨'f', [], true⟩] ([] ++ [⟨'f', ['a'], true⟩]) [] :=
  ⟨(C4_inline_value_policy [⟨'f', [], true⟩] ['-','f','a'] ⟨'f', [], true⟩
      ⟨'f', ['a'], true⟩ [] [] (by decide) (by decide)).1,
   (C4_inline_value_policy [⟨'f', [], true⟩] ['-','f','a'] ⟨'f', [], true⟩
      ⟨'f', ['a'], true⟩ [] [] (by decide) (by decide)).2.1,
   (C4_inline_value_policy [⟨'f', [], true⟩] ['-','f','a'] ⟨'f', [], true⟩
      ⟨'f', ['a'], true⟩ [] [] (by decide) (by decide)).2.2 rfl⟩

/-- C5: after declaring 'f' (expects a value) and parsing ["-fhello"],
has('f') holds and popValue('f') removes the occurrence and yields
"hello"; but the claimed second popValue('f') then runs on a store with no
'f' occurrence and reaches the undefined `erase(end())` — modelled as
`none` — instead of returning empty with has('f') false. -/
theorem C5_round_trip_second_pop_undefined :
    (parse (add ⟨[], []⟩ 'f' true) [['-','f','h','e','l','l','o']]).success
        = true ∧
    has (parse (add ⟨[], []⟩ 'f' true)
        [['-','f','h','e','l','l','o']]).state 'f' = true ∧
    popValue (parse (add ⟨[], []⟩ 'f' true)
        [['-','f','h','e','l','l','o']]).state 'f' =
      some (['h','e','l','l','o'], ⟨[], []⟩) ∧
    has (⟨[], []⟩ : OptionParser) 'f' = false ∧
    popValue (⟨[], []⟩ : OptionParser) 'f' = none := by decide

/-- C6: with 'f' declared as value-expecting, parsing ["-fa", "-fb"]
succeeds storing both occurrences in arrival order, and the
`while has('f') popValue('f')` drain yields "a" then "b", emptying the
store — FIFO per key. -/
theorem C6_fifo_drain :
    parse (add ⟨[], []⟩ 'f' true) [['-','f','a'], ['-','f','b']] =
      ⟨⟨[], [⟨'f', ['a'], true⟩, ⟨'f', ['b'], true⟩]⟩, true, []⟩ ∧
    has (⟨[], [⟨'f', ['a'], true⟩, ⟨'f', ['b'], true⟩]⟩ : OptionParser) 'f'
        = true ∧
    popValue (⟨[], [⟨'f', ['a'], true⟩, ⟨'f', ['b'], true⟩]⟩ : OptionParser)
        'f' = some (['a'], ⟨[], [⟨'f', ['b'], true⟩]⟩) ∧
    has (⟨[], [⟨'f', ['b'], true⟩]⟩ : OptionParser) 'f' = true ∧
    popValue (⟨[], [⟨'f', ['b'], true⟩]⟩ : OptionParser) 'f' =
      some (['b'], ⟨[], []⟩) ∧
    has (⟨[], []⟩ : OptionParser) 'f' = false := by decide

/-- C7: declaring the same key twice keeps both registry entries, lookup
returns the first-declared spec, and parsing any token is decided exactly
as if the second declaration were absent. -/
theorem C7_first_declared_spec_wins (p : OptionParser) (k : Char)
    (b₁ b₂ : Bool) (token : List Char)
    (hnone : findOption p.options k = none) :
    findOption ((add (add p k b₁) k b₂).options) k = some ⟨k, [], b₁⟩ ∧
    parseToken ((add (add p k b₁) k b₂).options) token =
      parseToken ((add p k b₁).options) token := by
  constructor
  · show findOption ((p.options ++ [⟨k, [], b₁⟩]) ++ [⟨k, [], b₂⟩]) k = _
    rw [List.append_assoc]
    unfold findOption at *
    rw [find?_append_of_none _ hnone]
    simp [List.find?]
  · apply parseToken_congr
    intro k'
    show findOption ((p.options ++ [⟨k, [], b₁⟩]) ++ [⟨k, [], b₂⟩]) k' = _
    rw [List.append_assoc]
    exact findOption_append_pair p.options k k' b₁ b₂

/-- Witness for C7: key 'x' declared twice (first without, then with a
value) on a fresh parser, probed with the token "-x". -/
theorem C7_witness :
    findOption ((add (add ⟨[], []⟩ 'x' false) 'x' true).options) 'x' =
      some ⟨'x', [], false⟩ ∧
    parseToken ((add (add ⟨[], []⟩ 'x' false) 'x' true).options) ['-','x'] =
      parseToken ((add ⟨[], []⟩ 'x' false).options) ['-','x'] :=
  C7_first_declared_spec_wins ⟨[], []⟩ 'x' false true ['-','x'] (by decide)

/-- C8: occurrences originate in parse alone — every occurrence in the
store after a parse call was already there or carries a key declared in
the registry at that call; add leaves the store untouched; popValue only
removes, every occurrence of its result store coming from the original
store.  (`has` is a pure read in this model and cannot mutate.) -/
theorem C8_occurrences_originate_in_parse (p q : OptionParser)
    (args : List (List Char)) (k : Char) (b : Bool) (v : List Char)
    (q' : OptionParser) (hpop : popValue q k = some (v, q')) :
    (∀ o ∈ (parse p args).state.parsed,
      o ∈ p.parsed ∨ o.key ∈ p.options.map Opt.key) ∧
    (add p k b).parsed = p.parsed ∧
    (∀ o ∈ q'.parsed, o ∈ q.parsed) := by
  refine ⟨?_, rfl, ?_⟩
  · intro o ho
    rw [parse_state_parsed] at ho
    exact runLoop_mem p.options args p.parsed o ho
  · intro o ho
    unfold popValue at hpop
    rcases hidx : q.parsed.findIdx? (fun x => x.key == k) with _ | i
    · simp only [hidx] at hpop
      exact Option.noConfusion hpop
    · simp only [hidx, Option.some.injEq, Prod.mk.injEq] at hpop
      have hq : q'.parsed = q.parsed.eraseIdx i := by
        rw [← hpop.2]
      exact mem_of_eraseIdx q.parsed i o (hq ▸ ho)

/-- Witness for C8: a parse of no arguments on a fresh parser, a
declaration of 'a', and a pop of the single 'a' occurrence. -/
theorem C8_witness :
    (∀ o ∈ (parse ⟨[], []⟩ []).state.parsed,
      o ∈ ([] : List Opt) ∨ o.key ∈ ([] : List Opt).map Opt.key) ∧
    (add ⟨[], []⟩ 'a' false).parsed = ([] : List Opt) ∧
    (∀ o ∈ (⟨[], []⟩ : OptionParser).parsed,
      o ∈ [(⟨'a', [], false⟩ : Opt)]) :=
  C8_occurrences_originate_in_parse ⟨[], []⟩ ⟨[], [⟨'a', [], false⟩]⟩ []
    'a' false [] ⟨[], []⟩ (by decide)

/-- C9 counterexample: two different failures — an unrecognised token and
an unknown option — give the caller the same returned value and the same
final state; only the printed text differs, and text is printed.  So the
error detail reaches the caller only through printing, not as returned
data. -/
theorem C9_counterexample :
    (parse ⟨[⟨'a', [], false⟩], []⟩ [['x']]).success =
      (parse ⟨[⟨'a', [], false⟩], []⟩ [['-','b']]).success ∧
    (parse ⟨[⟨'a', [], false⟩], []⟩ [['x']]).state =
      (parse ⟨[⟨'a', [], false⟩], []⟩ [['-','b']]).state ∧
    (parse ⟨[⟨'a', [], false⟩], []⟩ [['x']]).output ≠
      (parse ⟨[⟨'a', [], false⟩], []⟩ [['-','b']]).output ∧
    (parse ⟨[⟨'a', [], false⟩], []⟩ [['x']]).output ≠ [] := by decide

/-- C9 (amended): on failure, parse prints exactly one diagnostic line —
the rendering of the error category with the offending token or key — to
standard output and returns false; the registry is left as it was.  The
caller receives only the boolean. -/
theorem C9_failure_prints_one_diagnostic (p : OptionParser)
    (args : List (List Char))
    (hfail : (parse p args).success = false) :
    ∃ e, (runLoop p.options p.parsed args).2 = some e ∧
      (parse p args).output = [errMsg e] ∧
      (parse p args).state.options = p.options := by
  rcases h : runLoop p.options p.parsed args with ⟨parsedOut, res⟩
  cases res with
  | none => simp [parse, h] at hfail
  | some e => exact ⟨e, by simp [h], by simp [parse, h], by simp [parse, h]⟩

/-- Witness for C9's amended theorem at the failing input ["x"] with key
'a' declared. -/
theorem C9_witness :
    ∃ e, (runLoop [⟨'a', [], false⟩] [] [['x']]).2 = some e ∧
      (parse ⟨[⟨'a', [], false⟩], []⟩ [['x']]).output = [errMsg e] ∧
      (parse ⟨[⟨'a', [], false⟩], []⟩ [['x']]).state.options =
        [⟨'a', [], false⟩] :=
  C9_failure_prints_one_diagnostic ⟨[⟨'a', [], false⟩], []⟩ [['x']] (by decide)

/-- C10: parse never clears the result store on entry — whatever the
store held before the call (including occurrences left by an earlier
failed parse) stays as an initial segment of the new store, with any new
occurrences appended after it, and every key visible via has before the
call stays visible after it. -/
theorem C10_old_occurrences_persist (p : OptionParser)
    (args : List (List Char)) (k : Char) (hk : has p k = true) :
    (∃ t, (parse p args).state.parsed = p.parsed ++ t) ∧
    has (parse p args).state k = true := by
  obtain ⟨t, ht⟩ := runLoop_extends p.options args p.parsed
  have hps := parse_state_parsed p args
  refine ⟨⟨t, by rw [hps, ht]⟩, ?_⟩
  unfold has at hk ⊢
  rw [hps, ht]
  rcases hfind : p.parsed.find? (fun o => o.key == k) with _ | a
  · rw [hfind] at hk; simp at hk
  · rw [find?_append_of_some t hfind]
    rfl

/-- Witness for C10: a store holding one 'a' occurrence survives a failed
parse of ["-b"] (key 'b' undeclared) and 'a' is still visible. -/
theorem C10_witness :
    (∃ t, (parse ⟨[], [⟨'a', [], false⟩]⟩ [['-','b']]).state.parsed =
      [⟨'a', [], false⟩] ++ t) ∧
    has (parse ⟨[], [⟨'a', [], false⟩]⟩ [['-','b']]).state 'a' = true :=
  C10_old_occurrences_persist ⟨[], [⟨'a', [], false⟩]⟩ [['-','b']] 'a'
    (by decide)

end Picoarg
